import Mathlib

/-!
Shallow embedding of the configuration bootstrap of `pkg/common/cmd/root.go`
(openimsdk/chat): the etcd-backed configuration reconciliation routine
`updateConfigFromEtcd`, the discovery-client initialization `initEtcd`, and
the bootstrap orchestration `persistentPreRun`.

The etcd store is modelled as a read oracle (`Store.get`) plus a best-effort
write (`Store.put` returning success or failure); stored bytes are modelled
as `String` (Go `[]byte` of JSON text).  Config structures are an abstract
type `V`, with `json.Marshal` as `m : V → Option String` (fallible, as in the
code, where a marshal error is returned as `errs.ErrArgs`) and
`json.Unmarshal` as `u : String → Option V` (fallible; success yields the
deserialized value).  Every store interaction the Go code performs is
recorded in an operation trace, so that claims about which gets/puts are
issued can be stated.
-/

namespace Chat

/-- Modelled from the spec: the recognized control literal enabling
centralized configuration (`disetcd.Enable`; the constant itself lives in
`pkg/common/kdisc/etcd`, outside the excerpt). -/
def Enable : String := "enable"

/-- Modelled from the spec: the recognized control literal disabling
centralized configuration (`disetcd.Disable`). -/
def Disable : String := "disable"

/-- Modelled from the spec: the logical name of the control key gating
reconciliation (`disetcd.EnableConfigCenterKey`). -/
def EnableConfigCenterKey : String := "enable-config-center"

/-- Modelled from the spec: the logical name of the logging configuration
entry (`config.LogConfigFileName`). -/
def LogConfigFileName : String := "log.yml"

/-- Modelled from the spec: the discovery-config value selecting the etcd
backend (`kdisc.ETCDCONST`). -/
def ETCDCONST : String := "etcd"

/-- Modelled from the spec: deterministic key derivation from a logical
config name to a namespaced store key (`disetcd.BuildKey`). -/
def BuildKey (name : String) : String := "/chat/config/" ++ name

/-- Result of one etcd `Get` for a single key: connectivity error,
`res.Count == 0`, or a value (`res.Kvs[0].Value`). -/
inductive GetRes where
  | err : GetRes
  | notFound : GetRes
  | found (data : String) : GetRes
deriving DecidableEq

/-- The etcd client as seen by the reconciler: a read oracle and a
best-effort write (`false` = the put returned an error, which the code only
logs). -/
structure Store where
  get : String → GetRes
  put : String → String → Bool

/-- One store interaction issued by the reconciler. -/
inductive StoreOp where
  | get (key : String) : StoreOp
  | put (key : String) (data : String) : StoreOp
deriving DecidableEq

/-- The store key an operation addresses. -/
def StoreOp.key : StoreOp → String
  | .get k => k
  | .put k _ => k

/-- Whether an operation is a put to key `k`. -/
def StoreOp.isPutTo (k : String) : StoreOp → Bool
  | .get _ => false
  | .put k' _ => k' = k

/-- Number of puts to key `k` in a trace. -/
def countPut (k : String) (ops : List StoreOp) : Nat :=
  ops.countP (StoreOp.isPutTo k)

/-- The fatal error kinds `updateConfigFromEtcd` can return: the
unknown-control-value error, the `errs.ErrArgs` wrap of a `json.Marshal`
failure, and the wrap of a `json.Unmarshal` failure. -/
inductive RErr where
  | unknownMode : RErr
  | marshalErr : RErr
  | unmarshalErr : RErr
deriving DecidableEq

/-- Outcome of the inner `update` closure on one config entry: the error it
returns (if any), the entry's value afterwards, and the store operations it
issued. -/
structure EntryOut (V : Type) where
  err : Option RErr
  value : V
  ops : List StoreOp

/-- The inner `update` closure of `updateConfigFromEtcd` (root.go:173-196):
get the entry's derived key; on get error log and keep the local value; on
`Count == 0` marshal the local value (marshal failure returns
`errs.ErrArgs`) and attempt a put whose failure is only logged; on a found
value unmarshal it into the entry (unmarshal failure is returned). -/
def updateEntry {V : Type} (s : Store) (m : V → Option String)
    (u : String → Option V) (n : String) (v : V) : EntryOut V :=
  let key := BuildKey n
  match s.get key with
  | .err => ⟨none, v, [.get key]⟩
  | .notFound =>
    match m v with
    | none => ⟨some .marshalErr, v, [.get key]⟩
    | some data =>
      let _ := s.put key data
      ⟨none, v, [.get key, .put key data]⟩
  | .found b =>
    match u b with
    | none => ⟨some .unmarshalErr, v, [.get key]⟩
    | some v2 => ⟨none, v2, [.get key]⟩

/-- Outcome of the `for configFileName, configStruct := range opts.configMap`
loop: the first error (the loop returns it immediately), the entry list with
the values the loop left in the structs, and the operations issued. -/
structure EntriesOut (V : Type) where
  err : Option RErr
  entries : List (String × V)
  ops : List StoreOp

/-- The per-entry loop of `updateConfigFromEtcd` (root.go:197-201): run
`update` on each entry in order, stopping at the first error; entries after
the stopping point keep their local values. -/
def updateEntries {V : Type} (s : Store) (m : V → Option String)
    (u : String → Option V) : List (String × V) → EntriesOut V
  | [] => ⟨none, [], []⟩
  | (n, v) :: rest =>
    let r := updateEntry s m u n v
    match r.err with
    | some e => ⟨some e, (n, r.value) :: rest, r.ops⟩
    | none =>
      let rr := updateEntries s m u rest
      ⟨rr.err, (n, r.value) :: rr.entries, r.ops ++ rr.ops⟩

/-- Outcome of `updateConfigFromEtcd`: the error returned to the caller, the
final values of the configMap entries and of `r.log`, and the trace of store
operations issued. -/
structure ReconcileResult (V : Type) where
  error : Option RErr
  entries : List (String × V)
  log : V
  ops : List StoreOp

/-- Embeds `RootCmd.updateConfigFromEtcd` (root.go:152-208).  `client` is
`r.etcdClient` (`none` = nil, return immediately).  Otherwise get the control
key: a get error is logged and treated as success, as is `Count == 0`; the
literal `Disable` is success; any other non-`Enable` value is the fatal
unknown-mode error.  When enabled, run the per-entry loop over
`opts.configMap` and then `update` on the logging entry `&r.log`. -/
def updateConfigFromEtcd {V : Type} (client : Option Store)
    (m : V → Option String) (u : String → Option V)
    (entries : List (String × V)) (logv : V) : ReconcileResult V :=
  match client with
  | none => ⟨none, entries, logv, []⟩
  | some s =>
    let ckey := BuildKey EnableConfigCenterKey
    match s.get ckey with
    | .err => ⟨none, entries, logv, [.get ckey]⟩
    | .notFound => ⟨none, entries, logv, [.get ckey]⟩
    | .found value =>
      if value = Disable then ⟨none, entries, logv, [.get ckey]⟩
      else if value = Enable then
        let r := updateEntries s m u entries
        match r.err with
        | some e => ⟨some e, r.entries, logv, .get ckey :: r.ops⟩
        | none =>
          let rl := updateEntry s m u LogConfigFileName logv
          ⟨rl.err, r.entries, rl.value, .get ckey :: (r.ops ++ rl.ops)⟩
      else ⟨some .unknownMode, entries, logv, [.get ckey]⟩

/-- Embeds `RootCmd.initEtcd` (root.go:89-106): flag lookup and the
discovery-config load may fail; when the loaded discovery config selects the
etcd backend the client handle is set, otherwise it stays nil.  `s` is the
client the discovery registry would expose. -/
def initEtcd (flagErr loadErr : Bool) (disEnable : String) (s : Store) :
    Except Unit (Option Store) :=
  if flagErr then .error ()
  else if loadErr then .error ()
  else if disEnable = ETCDCONST then .ok (some s)
  else .ok none

/-- The step of `persistentPreRun` at which the bootstrap stopped with an
error. -/
inductive BootStage where
  | etcdInit : BootStage
  | configLoad : BootStage
  | reconcile : BootStage
  | logger : BootStage
  | close : BootStage
deriving DecidableEq

/-- Outcome of `persistentPreRun`: success, an error returned from some
stage, or the nil-pointer panic of calling `Close` on a nil client. -/
inductive BootResult where
  | ok : BootResult
  | error (stage : BootStage) : BootResult
  | nilPanic : BootResult
deriving DecidableEq

/-- Embeds `RootCmd.persistentPreRun` (root.go:108-127).  Collaborators
outside the excerpt (`initializeConfiguration`'s `config.Load` calls,
`initializeLogger`, `Close` on a live client) are modelled by their
outcomes (`configLoadErr`, `loggerErr`, `closeErr`).  Returns the outcome
and whether a live store connection was closed; `Close` is invoked
unconditionally, so a nil client at that point is a nil dereference. -/
def persistentPreRun {V : Type} (flagErr loadDiscoveryErr : Bool)
    (disEnable : String) (s : Store) (configLoadErr : Bool)
    (m : V → Option String) (u : String → Option V)
    (entries : List (String × V)) (logv : V)
    (loggerErr closeErr : Bool) : BootResult × Bool :=
  match initEtcd flagErr loadDiscoveryErr disEnable s with
  | .error _ => (.error .etcdInit, false)
  | .ok client =>
    if configLoadErr then (.error .configLoad, false)
    else
      match (updateConfigFromEtcd client m u entries logv).error with
      | some _ => (.error .reconcile, false)
      | none =>
        if loggerErr then (.error .logger, false)
        else
          match client with
          | none => (.nilPanic, false)
          | some _ =>
            if closeErr then (.error .close, true) else (.ok, true)

/-- The all-or-nothing relation of the reconciliation invariant: the final
value of an entry named `n` is its local value, or the value the
deserializer produced from the bytes the store holds for the entry's derived
key. -/
def AllOrNothing {V : Type} (client : Option Store) (u : String → Option V)
    (n : String) (localv finalv : V) : Prop :=
  finalv = localv ∨
    ∃ s B, client = some s ∧ s.get (BuildKey n) = .found B ∧ u B = some finalv

theorem BuildKey_injective : Function.Injective BuildKey := by
  intro a b h
  have h2 := congrArg String.data h
  simp only [BuildKey, String.data_append] at h2
  exact String.ext (List.append_cancel_left h2)

theorem updateEntry_get_err {V : Type} {s : Store} {m : V → Option String}
    {u : String → Option V} {n : String} {v : V}
    (hg : s.get (BuildKey n) = .err) :
    updateEntry s m u n v = ⟨none, v, [.get (BuildKey n)]⟩ := by
  simp [updateEntry, hg]

theorem updateEntry_notFound_marshal_none {V : Type} {s : Store}
    {m : V → Option String} {u : String → Option V} {n : String} {v : V}
    (hg : s.get (BuildKey n) = .notFound) (hm : m v = none) :
    updateEntry s m u n v = ⟨some .marshalErr, v, [.get (BuildKey n)]⟩ := by
  simp [updateEntry, hg, hm]

theorem updateEntry_notFound_marshal_some {V : Type} {s : Store}
    {m : V → Option String} {u : String → Option V} {n : String} {v : V}
    {d : String} (hg : s.get (BuildKey n) = .notFound) (hm : m v = some d) :
    updateEntry s m u n v =
      ⟨none, v, [.get (BuildKey n), .put (BuildKey n) d]⟩ := by
  simp [updateEntry, hg, hm]

theorem updateEntry_found_unmarshal_none {V : Type} {s : Store}
    {m : V → Option String} {u : String → Option V} {n : String} {v : V}
    {b : String} (hg : s.get (BuildKey n) = .found b) (hu : u b = none) :
    updateEntry s m u n v = ⟨some .unmarshalErr, v, [.get (BuildKey n)]⟩ := by
  simp [updateEntry, hg, hu]

theorem updateEntry_found_unmarshal_some {V : Type} {s : Store}
    {m : V → Option String} {u : String → Option V} {n : String} {v v2 : V}
    {b : String} (hg : s.get (BuildKey n) = .found b) (hu : u b = some v2) :
    updateEntry s m u n v = ⟨none, v2, [.get (BuildKey n)]⟩ := by
  simp [updateEntry, hg, hu]

theorem updateEntry_ops_key {V : Type} (s : Store) (m : V → Option String)
    (u : String → Option V) (n : String) (v : V) :
    ∀ op ∈ (updateEntry s m u n v).ops, op.key = BuildKey n := by
  intro op hop
  cases hg : s.get (BuildKey n) with
  | err =>
    rw [updateEntry_get_err hg] at hop
    simp at hop; simp [hop, StoreOp.key]
  | notFound =>
    cases hm : m v with
    | none =>
      rw [updateEntry_notFound_marshal_none hg hm] at hop
      simp at hop; simp [hop, StoreOp.key]
    | some data =>
      rw [updateEntry_notFound_marshal_some hg hm] at hop
      simp at hop
      rcases hop with h | h <;> simp [h, StoreOp.key]
  | found b =>
    cases hu : u b with
    | none =>
      rw [updateEntry_found_unmarshal_none hg hu] at hop
      simp at hop; simp [hop, StoreOp.key]
    | some v2 =>
      rw [updateEntry_found_unmarshal_some hg hu] at hop
      simp at hop; simp [hop, StoreOp.key]

theorem updateEntry_value_allOrNothing {V : Type} (s : Store)
    (m : V → Option String) (u : String → Option V) (n : String) (v : V) :
    AllOrNothing (some s) u n v (updateEntry s m u n v).value := by
  cases hg : s.get (BuildKey n) with
  | err => rw [updateEntry_get_err hg]; exact Or.inl rfl
  | notFound =>
    cases hm : m v with
    | none => rw [updateEntry_notFound_marshal_none hg hm]; exact Or.inl rfl
    | some data =>
      rw [updateEntry_notFound_marshal_some hg hm]; exact Or.inl rfl
  | found b =>
    cases hu : u b with
    | none => rw [updateEntry_found_unmarshal_none hg hu]; exact Or.inl rfl
    | some v2 =>
      rw [updateEntry_found_unmarshal_some hg hu]
      exact Or.inr ⟨s, b, rfl, hg, hu⟩

theorem updateEntries_forall2 {V : Type} (s : Store) (m : V → Option String)
    (u : String → Option V) (l : List (String × V)) :
    List.Forall₂ (fun a b => a.1 = b.1 ∧ AllOrNothing (some s) u a.1 a.2 b.2)
      l (updateEntries s m u l).entries := by
  induction l with
  | nil => exact List.Forall₂.nil
  | cons hd tl ih =>
    obtain ⟨n, v⟩ := hd
    simp only [updateEntries]
    cases h : (updateEntry s m u n v).err with
    | some e =>
      refine List.Forall₂.cons ⟨rfl, updateEntry_value_allOrNothing s m u n v⟩ ?_
      exact List.forall₂_same.mpr fun a _ => ⟨rfl, Or.inl rfl⟩
    | none =>
      exact List.Forall₂.cons ⟨rfl, updateEntry_value_allOrNothing s m u n v⟩ ih

theorem updateEntries_append {V : Type} (s : Store) (m : V → Option String)
    (u : String → Option V) (l1 l2 : List (String × V)) :
    updateEntries s m u (l1 ++ l2) =
      match (updateEntries s m u l1).err with
      | some e =>
        ⟨some e, (updateEntries s m u l1).entries ++ l2,
          (updateEntries s m u l1).ops⟩
      | none =>
        ⟨(updateEntries s m u l2).err,
          (updateEntries s m u l1).entries ++ (updateEntries s m u l2).entries,
          (updateEntries s m u l1).ops ++ (updateEntries s m u l2).ops⟩ := by
  induction l1 with
  | nil => simp [updateEntries]
  | cons hd tl ih =>
    obtain ⟨n, v⟩ := hd
    simp only [List.cons_append, updateEntries]
    cases h : (updateEntry s m u n v).err with
    | some e => simp [List.append_assoc]
    | none =>
      simp only [List.append_eq] at ih ⊢
      rw [ih]
      cases h2 : (updateEntries s m u tl).err with
      | some e => simp
      | none => simp [List.append_assoc]

theorem updateEntries_cons_err {V : Type} {s : Store} {m : V → Option String}
    {u : String → Option V} {n : String} {v : V} {e : RErr}
    {rest : List (String × V)} (h : (updateEntry s m u n v).err = some e) :
    updateEntries s m u ((n, v) :: rest) =
      ⟨some e, (n, (updateEntry s m u n v).value) :: rest,
        (updateEntry s m u n v).ops⟩ := by
  simp only [updateEntries, h]

theorem updateEntries_cons_ok {V : Type} {s : Store} {m : V → Option String}
    {u : String → Option V} {n : String} {v : V}
    {rest : List (String × V)} (h : (updateEntry s m u n v).err = none) :
    updateEntries s m u ((n, v) :: rest) =
      ⟨(updateEntries s m u rest).err,
        (n, (updateEntry s m u n v).value) :: (updateEntries s m u rest).entries,
        (updateEntry s m u n v).ops ++ (updateEntries s m u rest).ops⟩ := by
  simp only [updateEntries, h]

theorem updateEntries_ops_key {V : Type} (s : Store) (m : V → Option String)
    (u : String → Option V) (l : List (String × V)) :
    ∀ op ∈ (updateEntries s m u l).ops, ∃ p ∈ l, op.key = BuildKey p.1 := by
  induction l with
  | nil => intro op hop; simp [updateEntries] at hop
  | cons hd tl ih =>
    obtain ⟨n, v⟩ := hd
    intro op hop
    cases h : (updateEntry s m u n v).err with
    | some e =>
      rw [updateEntries_cons_err h] at hop
      exact ⟨(n, v), List.mem_cons_self _ _,
        updateEntry_ops_key s m u n v op hop⟩
    | none =>
      rw [updateEntries_cons_ok h] at hop
      simp only [List.mem_append] at hop
      rcases hop with h1 | h1
      · exact ⟨(n, v), List.mem_cons_self _ _,
          updateEntry_ops_key s m u n v op h1⟩
      · obtain ⟨p, hp, hk⟩ := ih op h1
        exact ⟨p, List.mem_cons_of_mem _ hp, hk⟩

theorem StoreOp_key_of_isPutTo {k : String} {op : StoreOp}
    (h : op.isPutTo k = true) : op.key = k := by
  cases op with
  | get k' => simp [StoreOp.isPutTo] at h
  | put k' d => simp [StoreOp.isPutTo] at h; simp [StoreOp.key, h]

theorem countPut_append (k : String) (l1 l2 : List StoreOp) :
    countPut k (l1 ++ l2) = countPut k l1 + countPut k l2 :=
  List.countP_append ..

theorem countPut_eq_zero_of_key_ne {k : String} {ops : List StoreOp}
    (h : ∀ op ∈ ops, op.key ≠ k) : countPut k ops = 0 :=
  List.countP_eq_zero.mpr fun op hop hput =>
    h op hop (StoreOp_key_of_isPutTo hput)

theorem updateEntries_countPut_zero {V : Type} {s : Store}
    {m : V → Option String} {u : String → Option V} {k : String}
    {l : List (String × V)} (h : ∀ p ∈ l, BuildKey p.1 ≠ k) :
    countPut k (updateEntries s m u l).ops = 0 :=
  countPut_eq_zero_of_key_ne fun op hop => by
    obtain ⟨p, hp, hk⟩ := updateEntries_ops_key s m u l op hop
    rw [hk]; exact h p hp

theorem updateConfigFromEtcd_nil_client {V : Type} (m : V → Option String)
    (u : String → Option V) (entries : List (String × V)) (logv : V) :
    updateConfigFromEtcd none m u entries logv = ⟨none, entries, logv, []⟩ :=
  rfl

theorem updateConfigFromEtcd_control_err {V : Type} {s : Store}
    {m : V → Option String} {u : String → Option V}
    {entries : List (String × V)} {logv : V}
    (h : s.get (BuildKey EnableConfigCenterKey) = .err) :
    updateConfigFromEtcd (some s) m u entries logv =
      ⟨none, entries, logv, [.get (BuildKey EnableConfigCenterKey)]⟩ := by
  simp only [updateConfigFromEtcd, h]

theorem updateConfigFromEtcd_control_notFound {V : Type} {s : Store}
    {m : V → Option String} {u : String → Option V}
    {entries : List (String × V)} {logv : V}
    (h : s.get (BuildKey EnableConfigCenterKey) = .notFound) :
    updateConfigFromEtcd (some s) m u entries logv =
      ⟨none, entries, logv, [.get (BuildKey EnableConfigCenterKey)]⟩ := by
  simp only [updateConfigFromEtcd, h]

theorem updateConfigFromEtcd_control_disable {V : Type} {s : Store}
    {m : V → Option String} {u : String → Option V}
    {entries : List (String × V)} {logv : V}
    (h : s.get (BuildKey EnableConfigCenterKey) = .found Disable) :
    updateConfigFromEtcd (some s) m u entries logv =
      ⟨none, entries, logv, [.get (BuildKey EnableConfigCenterKey)]⟩ := by
  simp [updateConfigFromEtcd, h]

theorem updateConfigFromEtcd_control_unknown {V : Type} {s : Store}
    {m : V → Option String} {u : String → Option V}
    {entries : List (String × V)} {logv : V} {val : String}
    (h : s.get (BuildKey EnableConfigCenterKey) = .found val)
    (hd : val ≠ Disable) (he : val ≠ Enable) :
    updateConfigFromEtcd (some s) m u entries logv =
      ⟨some .unknownMode, entries, logv,
        [.get (BuildKey EnableConfigCenterKey)]⟩ := by
  simp [updateConfigFromEtcd, h, hd, he]

theorem updateConfigFromEtcd_enabled_loop_err {V : Type} {s : Store}
    {m : V → Option String} {u : String → Option V}
    {entries : List (String × V)} {logv : V} {e : RErr}
    (h : s.get (BuildKey EnableConfigCenterKey) = .found Enable)
    (hl : (updateEntries s m u entries).err = some e) :
    updateConfigFromEtcd (some s) m u entries logv =
      ⟨some e, (updateEntries s m u entries).entries, logv,
        .get (BuildKey EnableConfigCenterKey) ::
          (updateEntries s m u entries).ops⟩ := by
  have hne : Enable ≠ Disable := by decide
  simp [updateConfigFromEtcd, h, hne, hl]

theorem updateConfigFromEtcd_enabled_loop_ok {V : Type} {s : Store}
    {m : V → Option String} {u : String → Option V}
    {entries : List (String × V)} {logv : V}
    (h : s.get (BuildKey EnableConfigCenterKey) = .found Enable)
    (hl : (updateEntries s m u entries).err = none) :
    updateConfigFromEtcd (some s) m u entries logv =
      ⟨(updateEntry s m u LogConfigFileName logv).err,
        (updateEntries s m u entries).entries,
        (updateEntry s m u LogConfigFileName logv).value,
        .get (BuildKey EnableConfigCenterKey) ::
          ((updateEntries s m u entries).ops ++
            (updateEntry s m u LogConfigFileName logv).ops)⟩ := by
  have hne : Enable ≠ Disable := by decide
  simp [updateConfigFromEtcd, h, hne, hl]

theorem countPut_cons_get (k q : String) (ops : List StoreOp) :
    countPut k (.get q :: ops) = countPut k ops := by
  simp [countPut, List.countP_cons, StoreOp.isPutTo]

theorem countPut_cons_put_eq (k d : String) (ops : List StoreOp) :
    countPut k (.put k d :: ops) = countPut k ops + 1 := by
  simp [countPut, List.countP_cons, StoreOp.isPutTo]

theorem updateEntries_middle {V : Type} (s : Store) (m : V → Option String)
    (u : String → Option V) (pre post : List (String × V)) (n : String)
    (v : V) (hpre : (updateEntries s m u pre).err = none)
    (hhead : (updateEntry s m u n v).err = none) :
    updateEntries s m u (pre ++ (n, v) :: post) =
      ⟨(updateEntries s m u post).err,
        (updateEntries s m u pre).entries ++
          (n, (updateEntry s m u n v).value) ::
            (updateEntries s m u post).entries,
        (updateEntries s m u pre).ops ++
          ((updateEntry s m u n v).ops ++ (updateEntries s m u post).ops)⟩ := by
  rw [updateEntries_append, hpre, updateEntries_cons_ok hhead]

theorem updateEntries_middle_err {V : Type} (s : Store)
    (m : V → Option String) (u : String → Option V)
    (pre post : List (String × V)) (n : String) (v : V) (e : RErr)
    (hpre : (updateEntries s m u pre).err = none)
    (hhead : (updateEntry s m u n v).err = some e) :
    updateEntries s m u (pre ++ (n, v) :: post) =
      ⟨some e,
        (updateEntries s m u pre).entries ++
          (n, (updateEntry s m u n v).value) :: post,
        (updateEntries s m u pre).ops ++ (updateEntry s m u n v).ops⟩ := by
  rw [updateEntries_append, hpre, updateEntries_cons_err hhead]

/-- Shared decomposition: when the control key enables reconciliation, the
entries before `n` process without error, and processing entry `n` leaves
its value unchanged and returns no error, the whole reconciliation has the
same error and final logging value as the reconciliation without that
entry, and the entry keeps its local value while the remaining entries are
still processed. -/
theorem reconcile_middle_inert {V : Type} (s : Store)
    (m : V → Option String) (u : String → Option V)
    (pre post : List (String × V)) (n : String) (v : V) (logv : V)
    (hc : s.get (BuildKey EnableConfigCenterKey) = .found Enable)
    (hpre : (updateEntries s m u pre).err = none)
    (herr : (updateEntry s m u n v).err = none)
    (hval : (updateEntry s m u n v).value = v) :
    (updateConfigFromEtcd (some s) m u (pre ++ (n, v) :: post) logv).entries =
      (updateEntries s m u pre).entries ++
        (n, v) :: (updateEntries s m u post).entries ∧
    (updateConfigFromEtcd (some s) m u (pre ++ (n, v) :: post) logv).error =
      (updateConfigFromEtcd (some s) m u (pre ++ post) logv).error ∧
    (updateConfigFromEtcd (some s) m u (pre ++ (n, v) :: post) logv).log =
      (updateConfigFromEtcd (some s) m u (pre ++ post) logv).log := by
  have hmid := updateEntries_middle s m u pre post n v hpre herr
  have h0 := updateEntries_append s m u pre post
  rw [hpre] at h0
  cases hperr : (updateEntries s m u post).err with
  | some e =>
    have hfull : (updateEntries s m u (pre ++ (n, v) :: post)).err = some e := by
      rw [hmid]; exact hperr
    have hfull0 : (updateEntries s m u (pre ++ post)).err = some e := by
      rw [h0]; exact hperr
    rw [updateConfigFromEtcd_enabled_loop_err hc hfull,
      updateConfigFromEtcd_enabled_loop_err hc hfull0, hmid, hval]
    exact ⟨rfl, rfl, rfl⟩
  | none =>
    have hfull : (updateEntries s m u (pre ++ (n, v) :: post)).err = none := by
      rw [hmid]; exact hperr
    have hfull0 : (updateEntries s m u (pre ++ post)).err = none := by
      rw [h0]; exact hperr
    rw [updateConfigFromEtcd_enabled_loop_ok hc hfull,
      updateConfigFromEtcd_enabled_loop_ok hc hfull0, hmid, hval]
    exact ⟨rfl, rfl, rfl⟩

/-- A concrete marshaller for witnesses: the Nat `v` serializes to `v`
letters. -/
def mStub : Nat → Option String := fun v => some (String.mk (List.replicate v 'a'))

/-- A concrete unmarshaller for witnesses: the byte count, with `"xx"` as a
designated undecodable value. -/
def uStub : String → Option Nat :=
  fun b => if b = "xx" then none else some b.length

/-- A store holding no keys at all. -/
def storeEmpty : Store := ⟨fun _ => .notFound, fun _ _ => true⟩

/-- A store whose control key holds the unrecognized literal `"maybe"`. -/
def storeMaybe : Store :=
  ⟨fun k => if k = BuildKey EnableConfigCenterKey then .found "maybe"
    else .notFound, fun _ _ => true⟩

/-- Claim C1: after reconciliation completes successfully, every config
entry in the ConfigSet plus the logging-config entry holds either its
original locally-loaded value or the value deserialized from the store's
bytes for that entry's key; no entry ever holds a half-merged structure
combining local and stored fields. -/
theorem claim1_reconcile_all_or_nothing {V : Type} (client : Option Store)
    (m : V → Option String) (u : String → Option V)
    (entries : List (String × V)) (logv : V)
    (h : (updateConfigFromEtcd client m u entries logv).error = none) :
    List.Forall₂ (fun a b => a.1 = b.1 ∧ AllOrNothing client u a.1 a.2 b.2)
      entries (updateConfigFromEtcd client m u entries logv).entries ∧
    AllOrNothing client u LogConfigFileName logv
      (updateConfigFromEtcd client m u entries logv).log := by
  cases client with
  | none =>
    rw [updateConfigFromEtcd_nil_client]
    exact ⟨List.forall₂_same.mpr fun a _ => ⟨rfl, Or.inl rfl⟩, Or.inl rfl⟩
  | some s =>
    cases hg : s.get (BuildKey EnableConfigCenterKey) with
    | err =>
      rw [updateConfigFromEtcd_control_err hg]
      exact ⟨List.forall₂_same.mpr fun a _ => ⟨rfl, Or.inl rfl⟩, Or.inl rfl⟩
    | notFound =>
      rw [updateConfigFromEtcd_control_notFound hg]
      exact ⟨List.forall₂_same.mpr fun a _ => ⟨rfl, Or.inl rfl⟩, Or.inl rfl⟩
    | found val =>
      by_cases hd : val = Disable
      · subst hd
        rw [updateConfigFromEtcd_control_disable hg]
        exact ⟨List.forall₂_same.mpr fun a _ => ⟨rfl, Or.inl rfl⟩, Or.inl rfl⟩
      · by_cases he : val = Enable
        · subst he
          cases hl : (updateEntries s m u entries).err with
          | some e =>
            rw [updateConfigFromEtcd_enabled_loop_err hg hl] at h
            simp at h
          | none =>
            rw [updateConfigFromEtcd_enabled_loop_ok hg hl]
            exact ⟨updateEntries_forall2 s m u entries,
              updateEntry_value_allOrNothing s m u LogConfigFileName logv⟩
        · rw [updateConfigFromEtcd_control_unknown hg hd he] at h
          simp at h

theorem claim1_witness :
    List.Forall₂
      (fun a b => a.1 = b.1 ∧ AllOrNothing (some storeEmpty) uStub a.1 a.2 b.2)
      [("share", 1)]
      (updateConfigFromEtcd (some storeEmpty) mStub uStub
        [("share", 1)] 2).entries ∧
    AllOrNothing (some storeEmpty) uStub LogConfigFileName 2
      (updateConfigFromEtcd (some storeEmpty) mStub uStub
        [("share", 1)] 2).log :=
  claim1_reconcile_all_or_nothing (some storeEmpty) mStub uStub
    [("share", 1)] 2 rfl

/-- Claim C2: if the mode resolves to Disabled — the control key is absent,
the store get for the control key errors, or the control value is the
literal disable — then reconciliation returns success, every entry's final
value equals its locally-loaded value, and no per-entry store get or put is
issued (the trace holds only the control-key get). -/
theorem claim2_disabled_is_noop {V : Type} (s : Store)
    (m : V → Option String) (u : String → Option V)
    (entries : List (String × V)) (logv : V)
    (h : s.get (BuildKey EnableConfigCenterKey) = .err ∨
      s.get (BuildKey EnableConfigCenterKey) = .notFound ∨
      s.get (BuildKey EnableConfigCenterKey) = .found Disable) :
    updateConfigFromEtcd (some s) m u entries logv =
      ⟨none, entries, logv, [.get (BuildKey EnableConfigCenterKey)]⟩ := by
  rcases h with h | h | h
  · exact updateConfigFromEtcd_control_err h
  · exact updateConfigFromEtcd_control_notFound h
  · exact updateConfigFromEtcd_control_disable h

theorem claim2_witness :
    updateConfigFromEtcd (some storeEmpty) mStub uStub [("share", 1)] 2 =
      ⟨none, [("share", 1)], 2, [.get (BuildKey EnableConfigCenterKey)]⟩ :=
  claim2_disabled_is_noop storeEmpty mStub uStub [("share", 1)] 2
    (Or.inr (Or.inl rfl))

/-- Claim C3: if the control key holds any value other than the literals
enable and disable, reconciliation aborts with the fatal unknown-mode error
and no config entry is mutated — all entries and the logging entry retain
their locally-loaded values. -/
theorem claim3_unknown_mode_aborts {V : Type} (s : Store)
    (m : V → Option String) (u : String → Option V)
    (entries : List (String × V)) (logv : V) (val : String)
    (h : s.get (BuildKey EnableConfigCenterKey) = .found val)
    (hd : val ≠ Disable) (he : val ≠ Enable) :
    updateConfigFromEtcd (some s) m u entries logv =
      ⟨some .unknownMode, entries, logv,
        [.get (BuildKey EnableConfigCenterKey)]⟩ :=
  updateConfigFromEtcd_control_unknown h hd he

theorem claim3_witness :
    updateConfigFromEtcd (some storeMaybe) mStub uStub [("share", 1)] 2 =
      ⟨some .unknownMode, [("share", 1)], 2,
        [.get (BuildKey EnableConfigCenterKey)]⟩ :=
  claim3_unknown_mode_aborts storeMaybe mStub uStub [("share", 1)] 2 "maybe"
    (by simp [storeMaybe]) (by decide) (by decide)

/-- A store whose control key enables reconciliation and which holds no
other keys; puts always fail. -/
def storeSeedPutFail : Store :=
  ⟨fun k => if k = BuildKey EnableConfigCenterKey then .found "enable"
    else .notFound, fun _ _ => false⟩

/-- A store whose control key enables reconciliation and which holds the
bytes `"aaaaaaa"` for the entry named `share`. -/
def storeFound : Store :=
  ⟨fun k => if k = BuildKey EnableConfigCenterKey then .found "enable"
    else if k = BuildKey "share" then .found "aaaaaaa"
    else .notFound, fun _ _ => true⟩

/-- A store whose control key enables reconciliation and which holds
undecodable bytes `"xx"` for the entry named `share`. -/
def storeBadBytes : Store :=
  ⟨fun k => if k = BuildKey EnableConfigCenterKey then .found "enable"
    else if k = BuildKey "share" then .found "xx"
    else .notFound, fun _ _ => true⟩

/-- A store whose control key enables reconciliation and whose every other
get fails with a store error. -/
def storeGetErr : Store :=
  ⟨fun k => if k = BuildKey EnableConfigCenterKey then .found "enable"
    else .err, fun _ _ => true⟩

/-- Claim C4: if mode is Enabled and the store holds a record with valid
bytes `B` for an entry's derived key, then after reconciliation no put is
issued for that entry and its in-memory value equals `deserialize B`,
replacing whatever was locally loaded. -/
theorem claim4_enabled_found_adopts {V : Type} (s : Store)
    (m : V → Option String) (u : String → Option V)
    (pre post : List (String × V)) (n : String) (v v2 : V) (B : String)
    (logv : V)
    (hc : s.get (BuildKey EnableConfigCenterKey) = .found Enable)
    (hpre : (updateEntries s m u pre).err = none)
    (hg : s.get (BuildKey n) = .found B)
    (hu : u B = some v2)
    (hnpre : ∀ p ∈ pre, p.1 ≠ n)
    (hnpost : ∀ p ∈ post, p.1 ≠ n)
    (hnlog : n ≠ LogConfigFileName) :
    (updateConfigFromEtcd (some s) m u (pre ++ (n, v) :: post) logv).entries =
      (updateEntries s m u pre).entries ++
        (n, v2) :: (updateEntries s m u post).entries ∧
    countPut (BuildKey n)
      (updateConfigFromEtcd (some s) m u (pre ++ (n, v) :: post) logv).ops
      = 0 := by
  have hEntry : updateEntry s m u n v = ⟨none, v2, [.get (BuildKey n)]⟩ :=
    updateEntry_found_unmarshal_some hg hu
  have hmid := updateEntries_middle s m u pre post n v hpre (by rw [hEntry])
  rw [hEntry] at hmid
  have hpre0 : countPut (BuildKey n) (updateEntries s m u pre).ops = 0 :=
    updateEntries_countPut_zero fun p hp heq => hnpre p hp (BuildKey_injective heq)
  have hpost0 : countPut (BuildKey n) (updateEntries s m u post).ops = 0 :=
    updateEntries_countPut_zero fun p hp heq => hnpost p hp (BuildKey_injective heq)
  have hlog0 : countPut (BuildKey n)
      (updateEntry s m u LogConfigFileName logv).ops = 0 :=
    countPut_eq_zero_of_key_ne fun op hop => by
      rw [updateEntry_ops_key s m u LogConfigFileName logv op hop]
      exact fun heq => hnlog (BuildKey_injective heq).symm
  cases hperr : (updateEntries s m u post).err with
  | some e =>
    have hfull : (updateEntries s m u (pre ++ (n, v) :: post)).err = some e := by
      rw [hmid]; exact hperr
    rw [updateConfigFromEtcd_enabled_loop_err hc hfull, hmid]
    refine ⟨rfl, ?_⟩
    simp [countPut_cons_get, countPut_append, hpre0, hpost0]
  | none =>
    have hfull : (updateEntries s m u (pre ++ (n, v) :: post)).err = none := by
      rw [hmid]; exact hperr
    rw [updateConfigFromEtcd_enabled_loop_ok hc hfull, hmid]
    refine ⟨rfl, ?_⟩
    simp [countPut_cons_get, countPut_append, hpre0, hpost0, hlog0]

theorem claim4_witness :
    (updateConfigFromEtcd (some storeFound) mStub uStub
      ([] ++ ("share", 1) :: []) 2).entries =
      (updateEntries storeFound mStub uStub []).entries ++
        ("share", 7) :: (updateEntries storeFound mStub uStub []).entries ∧
    countPut (BuildKey "share")
      (updateConfigFromEtcd (some storeFound) mStub uStub
        ([] ++ ("share", 1) :: []) 2).ops = 0 :=
  claim4_enabled_found_adopts storeFound mStub uStub [] [] "share" 1 7
    "aaaaaaa" 2 (by decide) rfl (by decide) (by decide)
    (by simp) (by simp) (by decide)

/-- Claim C5: if mode is Enabled and the store holds no record for an
entry's derived key, then exactly one put of the serialized locally-loaded
value is issued for that key, and the entry's in-memory value remains its
locally-loaded value. -/
theorem claim5_enabled_absent_seeds {V : Type} (s : Store)
    (m : V → Option String) (u : String → Option V)
    (pre post : List (String × V)) (n : String) (v : V) (d : String)
    (logv : V)
    (hc : s.get (BuildKey EnableConfigCenterKey) = .found Enable)
    (hpre : (updateEntries s m u pre).err = none)
    (hg : s.get (BuildKey n) = .notFound)
    (hm : m v = some d)
    (hnpre : ∀ p ∈ pre, p.1 ≠ n)
    (hnpost : ∀ p ∈ post, p.1 ≠ n)
    (hnlog : n ≠ LogConfigFileName) :
    countPut (BuildKey n)
      (updateConfigFromEtcd (some s) m u (pre ++ (n, v) :: post) logv).ops
      = 1 ∧
    StoreOp.put (BuildKey n) d ∈
      (updateConfigFromEtcd (some s) m u (pre ++ (n, v) :: post) logv).ops ∧
    (updateConfigFromEtcd (some s) m u (pre ++ (n, v) :: post) logv).entries =
      (updateEntries s m u pre).entries ++
        (n, v) :: (updateEntries s m u post).entries := by
  have hEntry : updateEntry s m u n v =
      ⟨none, v, [.get (BuildKey n), .put (BuildKey n) d]⟩ :=
    updateEntry_notFound_marshal_some hg hm
  have hmid := updateEntries_middle s m u pre post n v hpre (by rw [hEntry])
  rw [hEntry] at hmid
  have hpre0 : countPut (BuildKey n) (updateEntries s m u pre).ops = 0 :=
    updateEntries_countPut_zero fun p hp heq => hnpre p hp (BuildKey_injective heq)
  have hpost0 : countPut (BuildKey n) (updateEntries s m u post).ops = 0 :=
    updateEntries_countPut_zero fun p hp heq => hnpost p hp (BuildKey_injective heq)
  have hlog0 : countPut (BuildKey n)
      (updateEntry s m u LogConfigFileName logv).ops = 0 :=
    countPut_eq_zero_of_key_ne fun op hop => by
      rw [updateEntry_ops_key s m u LogConfigFileName logv op hop]
      exact fun heq => hnlog (BuildKey_injective heq).symm
  cases hperr : (updateEntries s m u post).err with
  | some e =>
    have hfull : (updateEntries s m u (pre ++ (n, v) :: post)).err = some e := by
      rw [hmid]; exact hperr
    rw [updateConfigFromEtcd_enabled_loop_err hc hfull, hmid]
    refine ⟨?_, ?_, rfl⟩
    · simp [countPut_cons_get, countPut_append, countPut_cons_put_eq,
        hpre0, hpost0]
    · simp
  | none =>
    have hfull : (updateEntries s m u (pre ++ (n, v) :: post)).err = none := by
      rw [hmid]; exact hperr
    rw [updateConfigFromEtcd_enabled_loop_ok hc hfull, hmid]
    refine ⟨?_, ?_, rfl⟩
    · simp [countPut_cons_get, countPut_append, countPut_cons_put_eq,
        hpre0, hpost0, hlog0]
    · simp

theorem claim5_witness :
    countPut (BuildKey "share")
      (updateConfigFromEtcd (some storeSeedPutFail) mStub uStub
        ([] ++ ("share", 1) :: []) 2).ops = 1 ∧
    StoreOp.put (BuildKey "share") "a" ∈
      (updateConfigFromEtcd (some storeSeedPutFail) mStub uStub
        ([] ++ ("share", 1) :: []) 2).ops ∧
    (updateConfigFromEtcd (some storeSeedPutFail) mStub uStub
      ([] ++ ("share", 1) :: []) 2).entries =
      (updateEntries storeSeedPutFail mStub uStub []).entries ++
        ("share", 1) :: (updateEntries storeSeedPutFail mStub uStub []).entries :=
  claim5_enabled_absent_seeds storeSeedPutFail mStub uStub [] [] "share" 1
    "a" 2 (by decide) rfl (by decide)
    (by decide) (by simp) (by simp) (by decide)

/-- Claim C6: if mode is Enabled and the store holds a record for an
entry's derived key whose bytes fail to deserialize, reconciliation aborts
with a fatal error propagated to the caller. -/
theorem claim6_bad_bytes_fatal {V : Type} (s : Store)
    (m : V → Option String) (u : String → Option V)
    (pre post : List (String × V)) (n : String) (v : V) (B : String)
    (logv : V)
    (hc : s.get (BuildKey EnableConfigCenterKey) = .found Enable)
    (hpre : (updateEntries s m u pre).err = none)
    (hg : s.get (BuildKey n) = .found B)
    (hu : u B = none) :
    (updateConfigFromEtcd (some s) m u (pre ++ (n, v) :: post) logv).error =
      some .unmarshalErr := by
  have hEntry : updateEntry s m u n v =
      ⟨some .unmarshalErr, v, [.get (BuildKey n)]⟩ :=
    updateEntry_found_unmarshal_none hg hu
  have hmid := updateEntries_middle_err s m u pre post n v .unmarshalErr hpre
    (by rw [hEntry])
  have hfull : (updateEntries s m u (pre ++ (n, v) :: post)).err =
      some .unmarshalErr := by rw [hmid]
  rw [updateConfigFromEtcd_enabled_loop_err hc hfull]

theorem claim6_witness :
    (updateConfigFromEtcd (some storeBadBytes) mStub uStub
      ([] ++ ("share", 1) :: []) 2).error = some .unmarshalErr :=
  claim6_bad_bytes_fatal storeBadBytes mStub uStub [] [] "share" 1 "xx" 2
    (by decide) rfl (by decide) (by decide)

/-- Claim C8: if mode is Enabled and the store get for an entry's derived
key returns an error, the entry's in-memory value is left untouched, the
error is not propagated to the caller (the reconciliation's outcome is that
of the same run without this entry), and the remaining entries are still
processed. -/
theorem claim8_get_err_skips_entry {V : Type} (s : Store)
    (m : V → Option String) (u : String → Option V)
    (pre post : List (String × V)) (n : String) (v : V) (logv : V)
    (hc : s.get (BuildKey EnableConfigCenterKey) = .found Enable)
    (hpre : (updateEntries s m u pre).err = none)
    (hg : s.get (BuildKey n) = .err) :
    (updateConfigFromEtcd (some s) m u (pre ++ (n, v) :: post) logv).entries =
      (updateEntries s m u pre).entries ++
        (n, v) :: (updateEntries s m u post).entries ∧
    (updateConfigFromEtcd (some s) m u (pre ++ (n, v) :: post) logv).error =
      (updateConfigFromEtcd (some s) m u (pre ++ post) logv).error ∧
    (updateConfigFromEtcd (some s) m u (pre ++ (n, v) :: post) logv).log =
      (updateConfigFromEtcd (some s) m u (pre ++ post) logv).log := by
  have hEntry : updateEntry s m u n v = ⟨none, v, [.get (BuildKey n)]⟩ :=
    updateEntry_get_err hg
  exact reconcile_middle_inert s m u pre post n v logv hc hpre
    (by rw [hEntry]) (by rw [hEntry])

theorem claim8_witness :
    (updateConfigFromEtcd (some storeGetErr) mStub uStub
      ([] ++ ("share", 1) :: [("admin", 3)]) 2).entries =
      (updateEntries storeGetErr mStub uStub []).entries ++
        ("share", 1) :: (updateEntries storeGetErr mStub uStub
          [("admin", 3)]).entries ∧
    (updateConfigFromEtcd (some storeGetErr) mStub uStub
      ([] ++ ("share", 1) :: [("admin", 3)]) 2).error =
      (updateConfigFromEtcd (some storeGetErr) mStub uStub
        ([] ++ [("admin", 3)]) 2).error ∧
    (updateConfigFromEtcd (some storeGetErr) mStub uStub
      ([] ++ ("share", 1) :: [("admin", 3)]) 2).log =
      (updateConfigFromEtcd (some storeGetErr) mStub uStub
        ([] ++ [("admin", 3)]) 2).log :=
  claim8_get_err_skips_entry storeGetErr mStub uStub [] [("admin", 3)]
    "share" 1 2 (by decide) rfl (by decide)

/-- A marshaller that always fails, exercising the `json.Marshal` error
branch of the seeding path. -/
def mFail : Nat → Option String := fun _ => none

/-- Counterexample to claim C7 as stated: with the control key enabled, the
entry `share` absent from the store, and serialization of the local value
failing, the seeding operation fails — yet reconciliation aborts and the
error IS returned to the caller (`errs.ErrArgs` from `json.Marshal`,
root.go:181-184), contradicting the claim that any failure of the seeding
operation (serializing and writing) is logged and swallowed. -/
theorem claim7_counterexample :
    (updateConfigFromEtcd (some storeSeedPutFail) mFail uStub
      [("share", 1)] 2).error = some .marshalErr := by decide

/-- Claim C7 as amended: if mode is Enabled, the store holds no record for
an entry's key, and serialization of the local value succeeds, then the
write to the store is best-effort — the theorem holds for every store, in
particular one whose every put fails — the entry proceeds with its
locally-loaded value, the remaining entries are still processed, and the
reconciliation's outcome equals that of the same run without this entry
(no error from this entry reaches the caller).  A serialization failure,
by contrast, aborts reconciliation (see the counterexample). -/
theorem claim7_seed_put_best_effort {V : Type} (s : Store)
    (m : V → Option String) (u : String → Option V)
    (pre post : List (String × V)) (n : String) (v : V) (d : String)
    (logv : V)
    (hc : s.get (BuildKey EnableConfigCenterKey) = .found Enable)
    (hpre : (updateEntries s m u pre).err = none)
    (hg : s.get (BuildKey n) = .notFound)
    (hm : m v = some d) :
    (updateConfigFromEtcd (some s) m u (pre ++ (n, v) :: post) logv).entries =
      (updateEntries s m u pre).entries ++
        (n, v) :: (updateEntries s m u post).entries ∧
    (updateConfigFromEtcd (some s) m u (pre ++ (n, v) :: post) logv).error =
      (updateConfigFromEtcd (some s) m u (pre ++ post) logv).error ∧
    (updateConfigFromEtcd (some s) m u (pre ++ (n, v) :: post) logv).log =
      (updateConfigFromEtcd (some s) m u (pre ++ post) logv).log := by
  have hEntry : updateEntry s m u n v =
      ⟨none, v, [.get (BuildKey n), .put (BuildKey n) d]⟩ :=
    updateEntry_notFound_marshal_some hg hm
  exact reconcile_middle_inert s m u pre post n v logv hc hpre
    (by rw [hEntry]) (by rw [hEntry])

theorem claim7_witness :
    (updateConfigFromEtcd (some storeSeedPutFail) mStub uStub
      ([] ++ ("share", 1) :: []) 2).entries =
      (updateEntries storeSeedPutFail mStub uStub []).entries ++
        ("share", 1) :: (updateEntries storeSeedPutFail mStub uStub []).entries ∧
    (updateConfigFromEtcd (some storeSeedPutFail) mStub uStub
      ([] ++ ("share", 1) :: []) 2).error =
      (updateConfigFromEtcd (some storeSeedPutFail) mStub uStub
        ([] ++ []) 2).error ∧
    (updateConfigFromEtcd (some storeSeedPutFail) mStub uStub
      ([] ++ ("share", 1) :: []) 2).log =
      (updateConfigFromEtcd (some storeSeedPutFail) mStub uStub
        ([] ++ []) 2).log :=
  claim7_seed_put_best_effort storeSeedPutFail mStub uStub [] [] "share" 1
    "a" 2 (by decide) rfl (by decide) (by decide)

/-- Counterexample to claim C9 as stated: a bootstrap in which the etcd
client is acquired (discovery selects etcd) and reconciliation aborts with
the unknown-mode error returns from `persistentPreRun` without closing the
acquired store connection — the second component, whether a live connection
was closed, is `false` — contradicting the claim that the connection is
closed on every exit path. -/
theorem claim9_counterexample :
    persistentPreRun false false ETCDCONST storeMaybe false mStub uStub
      [("share", 1)] 2 false false = (.error .reconcile, false) := by decide

/-- Claim C9 as amended: the store connection is closed only on the exit
paths that reach the final `Close` call — the fully successful run and the
run failing at `Close` itself; every earlier error exit (flag/discovery
init, config load, reconciliation, logger init) returns without closing,
and the nil-client path panics without closing. -/
theorem claim9_close_only_on_success_path {V : Type}
    (flagErr loadDiscoveryErr : Bool) (disEnable : String) (s : Store)
    (configLoadErr : Bool) (m : V → Option String) (u : String → Option V)
    (entries : List (String × V)) (logv : V) (loggerErr closeErr : Bool) :
    (persistentPreRun flagErr loadDiscoveryErr disEnable s configLoadErr
      m u entries logv loggerErr closeErr).2 = true ↔
    ((persistentPreRun flagErr loadDiscoveryErr disEnable s configLoadErr
      m u entries logv loggerErr closeErr).1 = .ok ∨
     (persistentPreRun flagErr loadDiscoveryErr disEnable s configLoadErr
      m u entries logv loggerErr closeErr).1 = .error .close) := by
  unfold persistentPreRun
  cases hI : initEtcd flagErr loadDiscoveryErr disEnable s with
  | error e => simp [hI]
  | ok client =>
    cases configLoadErr with
    | true => simp [hI]
    | false =>
      cases hR : (updateConfigFromEtcd client m u entries logv).error with
      | some e => simp [hI, hR]
      | none =>
        cases loggerErr with
        | true => simp [hI, hR]
        | false =>
          cases client with
          | none => simp [hI, hR]
          | some s2 => cases closeErr <;> simp [hI, hR]

/-- Claim C10: when the discovery configuration does not select the etcd
backend, the client handle stays nil, reconciliation short-circuits
successfully with no store interaction, and `persistentPreRun` then calls
`Close` unconditionally on the nil handle — the bootstrap ends in a nil
dereference instead of succeeding, even though every prior step
succeeded. -/
theorem claim10_nil_client_close_panics {V : Type} (disEnable : String)
    (s : Store) (m : V → Option String) (u : String → Option V)
    (entries : List (String × V)) (logv : V)
    (h : disEnable ≠ ETCDCONST) :
    initEtcd false false disEnable s = .ok none ∧
    updateConfigFromEtcd (none : Option Store) m u entries logv =
      ⟨none, entries, logv, []⟩ ∧
    persistentPreRun false false disEnable s false m u entries logv
      false false = (.nilPanic, false) := by
  have h1 : initEtcd false false disEnable s = .ok none := by
    simp [initEtcd, h]
  refine ⟨h1, rfl, ?_⟩
  unfold persistentPreRun
  rw [h1]
  rfl

theorem claim10_witness :
    initEtcd false false "zookeeper" storeEmpty = .ok none ∧
    updateConfigFromEtcd (none : Option Store) mStub uStub
      [("share", 1)] 2 = ⟨none, [("share", 1)], 2, []⟩ ∧
    persistentPreRun false false "zookeeper" storeEmpty false mStub uStub
      [("share", 1)] 2 false false = (.nilPanic, false) :=
  claim10_nil_client_close_panics "zookeeper" storeEmpty mStub uStub
    [("share", 1)] 2 (by decide)

end Chat
